import Mathlib

set_option maxRecDepth 10000

/-!
Shallow embedding of the sale/renewal notification engine of
`sale_actions` (src/sale_actions/src/processing.rs), together with proofs
about its eligibility resolution, dedup marking, notification building and
error handling.

Modelling conventions:
* MongoDB collections become Lean lists; the aggregation pipeline of
  `process_purchase_data` / `process_auto_renew_data` (lookup metadata,
  match nonempty, anti-join markers, lookup groups) becomes a filter + join
  over those lists.
* A stored document either has the shape `SaleDoc` expects (constructor
  `wellFormed`) or fails `bson::from_document` decoding (constructor
  `malformed`, which still carries the two join keys every stored document
  has).
* `EmailAddress::is_valid` (external crate) is a parameter
  `isValidEmail : String → Bool` of the pipeline.
* The HTTP client is a parameter `http : String → HttpResult` mapping the
  request URL to its delivery outcome; the logged response body (or the
  fallback text used when reading the body fails) is the oracle's string.
* A Rust panic (`unwrap` on a failed aggregate, indexing `metadata[0]` on
  an empty vector) is modelled as `Option.none` propagating out of the
  function.
-/

namespace SaleActions

/-- Configuration subset used by the engine: `email.base_url` and
`email.api_key` from config.rs. -/
structure EmailConf where
  base_url : String
  api_key : String

/-- Configuration record (only the `email` section is read by processing.rs). -/
structure Config where
  email : EmailConf

/-- Logger messages emitted by the engine; `localMsg` is `logger.local`,
`severe` is `logger.severe`. -/
inductive Log where
  | localMsg : String → Log
  | severe : String → Log
deriving DecidableEq

/-- MetadataDoc from processing.rs. -/
structure MetadataDoc where
  meta_hash : String
  email : String
  tax_state : String
  salt : String
deriving DecidableEq

/-- Fields of a stored `sales` document (SaleDoc before the `$lookup`
stages add `metadata` and `same_tx_groups`). -/
structure SaleFields where
  tx_hash : String
  meta_hash : String
  domain : String
  price : Float
  payer : String
  timestamp : Int
  expiry : Int
  auto : Bool
  sponsor : Option String
  sponsor_comm : Option Float

/-- SaleDoc from processing.rs: the decoded joined document. -/
structure SaleDoc where
  tx_hash : String
  meta_hash : String
  domain : String
  price : Float
  payer : String
  timestamp : Int
  expiry : Int
  auto : Bool
  sponsor : Option String
  sponsor_comm : Option Float
  metadata : List MetadataDoc
  same_tx_groups : List String

/-- Fields of a stored `auto_renew_updates` document. -/
structure RenewalFields where
  tx_hash : String
  meta_hash : String
  domain : String
  renewer : String
  allowance : String

/-- ReenewalToggledDoc from processing.rs (source spelling kept). -/
structure ReenewalToggledDoc where
  tx_hash : String
  meta_hash : String
  domain : String
  renewer : String
  allowance : String
  metadata : List MetadataDoc
  same_tx_groups : List String

/-- A raw document of the `sales` collection: either it has the shape
`SaleDoc` decoding expects, or decoding fails.  Every stored document still
carries the two join keys (`meta_hash`, `tx_hash`), so a malformed one
records just those. -/
inductive RawSaleDoc where
  | wellFormed : SaleFields → RawSaleDoc
  | malformed : String → String → RawSaleDoc

/-- Join key `meta_hash` of a raw sales document. -/
def RawSaleDoc.metaHash : RawSaleDoc → String
  | .wellFormed f => f.meta_hash
  | .malformed mh _ => mh

/-- Join key `tx_hash` of a raw sales document. -/
def RawSaleDoc.txHash : RawSaleDoc → String
  | .wellFormed f => f.tx_hash
  | .malformed _ th => th

/-- A raw document of the `auto_renew_updates` collection. -/
inductive RawRenewalDoc where
  | wellFormed : RenewalFields → RawRenewalDoc
  | malformed : String → String → RawRenewalDoc

/-- Join key `meta_hash` of a raw renewal document. -/
def RawRenewalDoc.metaHash : RawRenewalDoc → String
  | .wellFormed f => f.meta_hash
  | .malformed mh _ => mh

/-- Join key `tx_hash` of a raw renewal document. -/
def RawRenewalDoc.txHash : RawRenewalDoc → String
  | .wellFormed f => f.tx_hash
  | .malformed _ th => th

/-- A document of the `email_groups` collection. -/
structure GroupDoc where
  tx_hash : String
  group : String
deriving DecidableEq

/-- The collections read and written by `process_purchase_data`:
`sales`, `metadata`, `processed` (markers keyed by meta_hash) and
`email_groups`. -/
structure SalesStore where
  sales : List RawSaleDoc
  metadata : List MetadataDoc
  processed : List String
  email_groups : List GroupDoc

/-- The collections read and written by `process_auto_renew_data`:
`auto_renew_updates`, `metadata`, `ar_processed` (markers keyed by
tx_hash) and `email_groups`. -/
structure RenewalStore where
  auto_renew_updates : List RawRenewalDoc
  metadata : List MetadataDoc
  ar_processed : List String
  email_groups : List GroupDoc

/-- Metadata records joined to a document: the `$lookup` of `metadata` on
`meta_hash`. -/
def metadataFor (mds : List MetadataDoc) (mh : String) : List MetadataDoc :=
  mds.filter (fun m => m.meta_hash == mh)

/-- Markers joined to a document: the `$lookup` of the marker collection on
the dedup key (used only through emptiness, as the `$match` anti-join). -/
def markersFor (ms : List String) (k : String) : List String :=
  ms.filter (fun x => x == k)

/-- Group tags joined to a document: the `$lookup` of `email_groups` on
`tx_hash` followed by the `$addFields` projection of the `group` field. -/
def groupsFor (gs : List GroupDoc) (th : String) : List String :=
  (gs.filter (fun g => g.tx_hash == th)).map (fun g => g.group)

/-- Output row of the sales aggregation pipeline: the raw document plus
the joined `metadata` and projected `same_tx_groups` arrays. -/
structure JoinedSale where
  raw : RawSaleDoc
  metadata : List MetadataDoc
  same_tx_groups : List String

/-- Output row of the renewals aggregation pipeline. -/
structure JoinedRenewal where
  raw : RawRenewalDoc
  metadata : List MetadataDoc
  same_tx_groups : List String

/-- Join one sales document against `metadata` and `email_groups`. -/
def joinSale (st : SalesStore) (r : RawSaleDoc) : JoinedSale :=
  { raw := r
    metadata := metadataFor st.metadata r.metaHash
    same_tx_groups := groupsFor st.email_groups r.txHash }

/-- Join one renewal document against `metadata` and `email_groups`. -/
def joinRenewal (st : RenewalStore) (r : RawRenewalDoc) : JoinedRenewal :=
  { raw := r
    metadata := metadataFor st.metadata r.metaHash
    same_tx_groups := groupsFor st.email_groups r.txHash }

/-- The two `$match` stages of the sales pipeline: joined metadata nonempty
(`metadata ≠ []`) and anti-join against `processed` on `meta_hash`
(`processed_doc = []`). -/
def saleEligible (st : SalesStore) (r : RawSaleDoc) : Bool :=
  !(metadataFor st.metadata r.metaHash).isEmpty &&
    (markersFor st.processed r.metaHash).isEmpty

/-- The two `$match` stages of the renewals pipeline: joined metadata
nonempty and anti-join against `ar_processed` on `tx_hash`. -/
def renewalEligible (st : RenewalStore) (r : RawRenewalDoc) : Bool :=
  !(metadataFor st.metadata r.metaHash).isEmpty &&
    (markersFor st.ar_processed r.txHash).isEmpty

/-- Denotation of the six-stage aggregation pipeline of
`process_purchase_data` (processing.rs lines 92-133). -/
def resolveSales (st : SalesStore) : List JoinedSale :=
  (st.sales.filter (saleEligible st)).map (joinSale st)

/-- Denotation of the six-stage aggregation pipeline of
`process_auto_renew_data` (processing.rs lines 244-288). -/
def resolveRenewals (st : RenewalStore) : List JoinedRenewal :=
  (st.auto_renew_updates.filter (renewalEligible st)).map (joinRenewal st)

/-- Decoding of a joined document into `SaleDoc`
(`mongodb::bson::from_document::<SaleDoc>`): succeeds exactly when the raw
document has the expected shape. -/
def decodeSaleDoc (j : JoinedSale) : Option SaleDoc :=
  match j.raw with
  | .malformed _ _ => none
  | .wellFormed f =>
    some { tx_hash := f.tx_hash, meta_hash := f.meta_hash, domain := f.domain
           price := f.price, payer := f.payer, timestamp := f.timestamp
           expiry := f.expiry, auto := f.auto, sponsor := f.sponsor
           sponsor_comm := f.sponsor_comm, metadata := j.metadata
           same_tx_groups := j.same_tx_groups }

/-- Decoding of a joined document into `ReenewalToggledDoc`. -/
def decodeRenewalDoc (j : JoinedRenewal) : Option ReenewalToggledDoc :=
  match j.raw with
  | .malformed _ _ => none
  | .wellFormed f =>
    some { tx_hash := f.tx_hash, meta_hash := f.meta_hash, domain := f.domain
           renewer := f.renewer, allowance := f.allowance
           metadata := j.metadata, same_tx_groups := j.same_tx_groups }

/-! Embedding of the chrono calls used on line 55-58 of processing.rs:
`NaiveDateTime::from_timestamp_opt(sale.expiry, 0)` followed by
`.format("%Y-%m-%d %H:%M:%S")`.  Civil-date arithmetic follows the
standard days-from-civil / civil-from-days algorithms chrono implements;
the range check matches chrono's `NaiveDate` year range
-262144 ..= 262143. -/

/-- Day count since 1970-01-01 of a proleptic Gregorian civil date. -/
def daysFromCivil (y m d : Int) : Int :=
  let y' := y - (if m ≤ 2 then 1 else 0)
  let era := Int.fdiv y' 400
  let yoe := y' - era * 400
  let doy := Int.fdiv (153 * (m + (if m > 2 then -3 else 9)) + 2) 5 + d - 1
  let doe := yoe * 365 + Int.fdiv yoe 4 - Int.fdiv yoe 100 + doy
  era * 146097 + doe - 719468

/-- Civil date (year, month, day) of a day count since 1970-01-01. -/
def civilFromDays (z0 : Int) : Int × Int × Int :=
  let z := z0 + 719468
  let era := Int.fdiv z 146097
  let doe := z - era * 146097
  let yoe := Int.fdiv (doe - Int.fdiv doe 1460 + Int.fdiv doe 36524 - Int.fdiv doe 146096) 365
  let y := yoe + era * 400
  let doy := doe - (365 * yoe + Int.fdiv yoe 4 - Int.fdiv yoe 100)
  let mp := Int.fdiv (5 * doy + 2) 153
  let d := doy - Int.fdiv (153 * mp + 2) 5 + 1
  let m := mp + (if mp < 10 then 3 else -9)
  (y + (if m ≤ 2 then 1 else 0), m, d)

/-- Smallest Unix timestamp representable as a chrono `NaiveDateTime`
(midnight of -262144-01-01). -/
def minTimestamp : Int := daysFromCivil (-262144) 1 1 * 86400

/-- Largest whole-second Unix timestamp representable as a chrono
`NaiveDateTime` (23:59:59 of 262143-12-31). -/
def maxTimestamp : Int := daysFromCivil 262143 12 31 * 86400 + 86399

/-- `NaiveDateTime::from_timestamp_opt(secs, 0)`: `some` exactly on the
representable range. -/
def fromTimestampOpt (secs : Int) : Option Int :=
  if minTimestamp ≤ secs ∧ secs ≤ maxTimestamp then some secs else none

/-- Zero-pad a number to two digits. -/
def padNat2 (n : Nat) : String :=
  if n < 10 then "0" ++ toString n else toString n

/-- Zero-pad a number to four digits (chrono's %Y for nonnegative years). -/
def padNat4 (n : Nat) : String :=
  if n < 10 then "000" ++ toString n
  else if n < 100 then "00" ++ toString n
  else if n < 1000 then "0" ++ toString n
  else toString n

/-- Render a year as chrono's %Y does: zero-padded to four digits for
years 0..=9999, and with an explicit sign (and zero-padding to four
digits after the sign) for years outside that span. -/
def yearString (y : Int) : String :=
  if y < 0 then "-" ++ padNat4 (Int.toNat (-y))
  else if y < 10000 then padNat4 (Int.toNat y)
  else "+" ++ toString (Int.toNat y)

/-- Render a Unix timestamp as chrono's
`format("%Y-%m-%d %H:%M:%S")` on the UTC civil time. -/
def formatTimestamp (secs : Int) : String :=
  let days := Int.fdiv secs 86400
  let sod := Int.emod secs 86400
  let c := civilFromDays days
  let hh := Int.fdiv sod 3600
  let mm := Int.fdiv (Int.emod sod 3600) 60
  let ss := Int.emod sod 60
  yearString c.1 ++ "-" ++ padNat2 c.2.1.toNat ++ "-" ++ padNat2 c.2.2.toNat ++
    " " ++ padNat2 hh.toNat ++ ":" ++ padNat2 mm.toNat ++ ":" ++ padNat2 ss.toNat

/-- The `expiry` value interpolated into the sale URL (processing.rs lines
55-58): the formatted timestamp when representable, else the literal
`none`. -/
def expiryString (expiry : Int) : String :=
  match fromTimestampOpt expiry with
  | some t => formatTimestamp t
  | none => "none"

/-- Outcome of one HTTP POST as the engine observes it: success (2xx),
non-2xx with status text and response body, or a transport error. -/
inductive HttpResult where
  | success : HttpResult
  | httpError : String → String → HttpResult
  | transportError : String → HttpResult

/-- The `groups[]=` query parameters (processing.rs lines 43-47). -/
def saleGroupsParams (sale : SaleDoc) : List String :=
  sale.same_tx_groups.map (fun group => "groups[]=" ++ group)

/-- The `groups[]=` query parameters of a renewal event
(processing.rs lines 197-202). -/
def renewalGroupsParams (sale : ReenewalToggledDoc) : List String :=
  sale.same_tx_groups.map (fun group => "groups[]=" ++ group)

/-- The part of the sale URL preceding the joined group parameters. -/
def saleUrlStem (conf : Config) (email : String) (sale : SaleDoc) : String :=
  conf.email.base_url ++ "?email=" ++ email ++ "&fields[name]=" ++ sale.domain ++
    "&fields[expiry]=" ++ expiryString sale.expiry

/-- The URL built by `process_sale` (processing.rs lines 50-60), with
`email` passed in for `&sale.metadata[0].email`. -/
def saleUrl (conf : Config) (email : String) (sale : SaleDoc) : String :=
  saleUrlStem conf email sale ++ "&" ++ String.intercalate "&" (saleGroupsParams sale)

/-- The part of the renewal URL preceding the joined group parameters. -/
def renewalUrlStem (conf : Config) (email : String) (sale : ReenewalToggledDoc) : String :=
  conf.email.base_url ++ "?email=" ++ email ++ "&fields[name]=" ++ sale.domain ++
    "&fields[renewer]=" ++ sale.renewer

/-- The URL built by `process_toggle_renewal` (processing.rs lines
205-212). -/
def renewalUrl (conf : Config) (email : String) (sale : ReenewalToggledDoc) : String :=
  renewalUrlStem conf email sale ++ "&" ++ String.intercalate "&" (renewalGroupsParams sale)

/-- The `Authorization` header value (processing.rs line 63). -/
def authHeader (conf : Config) : String :=
  "Bearer " ++ conf.email.api_key

/-- What one call of `process_sale` / `process_toggle_renewal` did: the
POSTed URL, if any, and the log lines emitted. -/
structure SaleAction where
  request : Option String
  logs : List Log
deriving DecidableEq

/-- Log lines of the delivery `match` (processing.rs lines 67-88): nothing
on success, one severe line otherwise. -/
def deliveryLogs (url : String) : HttpResult → List Log
  | .success => []
  | .httpError status body =>
    [Log.severe ("Received non-success status from POST request: " ++ status ++
      ". URL: " ++ url ++ ", Response body: " ++ body)]
  | .transportError e => [Log.severe ("Failed to send POST request: " ++ e)]

/-- `process_sale` (processing.rs lines 36-89).  `none` models the panic of
`sale.metadata[0]` on an empty metadata vector; otherwise the email is
validated, and on success the URL is built and POSTed. -/
def process_sale (conf : Config) (isValidEmail : String → Bool)
    (http : String → HttpResult) (sale : SaleDoc) : Option SaleAction :=
  match sale.metadata with
  | [] => none
  | m0 :: _ =>
    if !isValidEmail m0.email then
      some { request := none
             logs := [Log.localMsg ("email " ++ m0.email ++ " is not valid")] }
    else
      let url := saleUrl conf m0.email sale
      some { request := some url, logs := deliveryLogs url (http url) }

/-- `process_toggle_renewal` (processing.rs lines 191-241). -/
def process_toggle_renewal (conf : Config) (isValidEmail : String → Bool)
    (http : String → HttpResult) (sale : ReenewalToggledDoc) : Option SaleAction :=
  match sale.metadata with
  | [] => none
  | m0 :: _ =>
    if !isValidEmail m0.email then
      some { request := none
             logs := [Log.localMsg ("email " ++ m0.email ++ " is not valid")] }
    else
      let url := renewalUrl conf m0.email sale
      some { request := some url, logs := deliveryLogs url (http url) }

/-- Accumulated result of the cursor loop of a pass: the dedup keys pushed
onto `processed` (in order), the URLs POSTed, and the log lines. -/
structure PassAcc where
  visited : List String
  requests : List String
  logs : List Log
deriving DecidableEq

/-- The cursor loop of `process_purchase_data` (processing.rs lines
137-153) over the rows the aggregation yielded.  An `Except.error` row is a
per-record cursor error (logged, skipped); a row that fails `SaleDoc`
decoding is logged and skipped without being visited; a decoded row is
handed to `process_sale` and its `meta_hash` pushed.  `none` propagates a
panic out of `process_sale`. -/
def processSaleRows (conf : Config) (isValidEmail : String → Bool)
    (http : String → HttpResult) : List (Except String JoinedSale) → Option PassAcc
  | [] => some ⟨[], [], []⟩
  | Except.error e :: rest =>
    (processSaleRows conf isValidEmail http rest).map
      (fun a => ⟨a.visited, a.requests, Log.severe ("Error while processing: " ++ e) :: a.logs⟩)
  | Except.ok j :: rest =>
    match decodeSaleDoc j with
    | none =>
      (processSaleRows conf isValidEmail http rest).map
        (fun a => ⟨a.visited, a.requests, Log.severe "Error parsing doc" :: a.logs⟩)
    | some doc =>
      match process_sale conf isValidEmail http doc with
      | none => none
      | some act =>
        (processSaleRows conf isValidEmail http rest).map
          (fun a => ⟨doc.meta_hash :: a.visited, act.request.toList ++ a.requests,
            act.logs ++ a.logs⟩)

/-- The cursor loop of `process_auto_renew_data` (processing.rs lines
293-308); the dedup key pushed is `tx_hash`. -/
def processRenewalRows (conf : Config) (isValidEmail : String → Bool)
    (http : String → HttpResult) : List (Except String JoinedRenewal) → Option PassAcc
  | [] => some ⟨[], [], []⟩
  | Except.error e :: rest =>
    (processRenewalRows conf isValidEmail http rest).map
      (fun a => ⟨a.visited, a.requests, Log.severe ("Error while processing: " ++ e) :: a.logs⟩)
  | Except.ok j :: rest =>
    match decodeRenewalDoc j with
    | none =>
      (processRenewalRows conf isValidEmail http rest).map
        (fun a => ⟨a.visited, a.requests, Log.severe "Error parsing doc" :: a.logs⟩)
    | some doc =>
      match process_toggle_renewal conf isValidEmail http doc with
      | none => none
      | some act =>
        (processRenewalRows conf isValidEmail http rest).map
          (fun a => ⟨doc.tx_hash :: a.visited, act.request.toList ++ a.requests,
            act.logs ++ a.logs⟩)

/-- Outcome of the final `insert_many`: either every document of the batch
was inserted, or the ordered bulk write failed after inserting the first
`n` documents of the batch (a mid-batch failure leaves that prefix
durably inserted) with an error text. -/
inductive InsertOutcome where
  | ok : InsertOutcome
  | failed : Nat → String → InsertOutcome

/-- `process_purchase_data` (processing.rs lines 91-178) with its two store
effects exposed: `agg` is the result of `aggregate(pipeline)` (an outer
error makes `.unwrap()` panic, modelled as `none`; inner errors are
per-record cursor errors) and `insertOutcome` is the result of the final
`insert_many`, consulted only when the visited list is nonempty.  On a
successful insert the markers are appended to `processed`; on a failed
ordered bulk write the error is logged and the prefix of the batch
inserted before the failure remains in `processed`. -/
def runSalesPassWith (conf : Config) (isValidEmail : String → Bool)
    (http : String → HttpResult)
    (agg : Except String (List (Except String JoinedSale)))
    (insertOutcome : InsertOutcome)
    (st : SalesStore) : Option (PassAcc × SalesStore) :=
  match agg with
  | .error _ => none
  | .ok rows =>
    match processSaleRows conf isValidEmail http rows with
    | none => none
    | some acc =>
      if acc.visited.isEmpty then some (acc, st)
      else
        match insertOutcome with
        | .ok => some (acc, { st with processed := st.processed ++ acc.visited })
        | .failed n e =>
          some ({ acc with
                  logs := acc.logs ++
                    [Log.severe ("Error inserting into processed collection: " ++ e)] },
            { st with processed := st.processed ++ acc.visited.take n })

/-- `process_auto_renew_data` (processing.rs lines 243-333) with its store
effects exposed; markers go to `ar_processed`, and a failed ordered bulk
write likewise keeps the inserted prefix. -/
def runRenewalPassWith (conf : Config) (isValidEmail : String → Bool)
    (http : String → HttpResult)
    (agg : Except String (List (Except String JoinedRenewal)))
    (insertOutcome : InsertOutcome)
    (st : RenewalStore) : Option (PassAcc × RenewalStore) :=
  match agg with
  | .error _ => none
  | .ok rows =>
    match processRenewalRows conf isValidEmail http rows with
    | none => none
    | some acc =>
      if acc.visited.isEmpty then some (acc, st)
      else
        match insertOutcome with
        | .ok => some (acc, { st with ar_processed := st.ar_processed ++ acc.visited })
        | .failed n e =>
          some ({ acc with
                  logs := acc.logs ++
                    [Log.severe ("Error inserting into processed collection: " ++ e)] },
            { st with ar_processed := st.ar_processed ++ acc.visited.take n })

/-- One pass of `process_purchase_data` on a store whose query and insert
succeed: the rows are exactly the resolved eligible documents. -/
def runSalesPass (conf : Config) (isValidEmail : String → Bool)
    (http : String → HttpResult) (st : SalesStore) : Option (PassAcc × SalesStore) :=
  runSalesPassWith conf isValidEmail http (.ok ((resolveSales st).map Except.ok)) .ok st

/-- One pass of `process_auto_renew_data` on a store whose query and insert
succeed. -/
def runRenewalPass (conf : Config) (isValidEmail : String → Bool)
    (http : String → HttpResult) (st : RenewalStore) : Option (PassAcc × RenewalStore) :=
  runRenewalPassWith conf isValidEmail http (.ok ((resolveRenewals st).map Except.ok)) .ok st

/-! Helper lemmas about the resolver. -/

theorem joinSale_raw (st : SalesStore) (r : RawSaleDoc) : (joinSale st r).raw = r := rfl

theorem joinRenewal_raw (st : RenewalStore) (r : RawRenewalDoc) :
    (joinRenewal st r).raw = r := rfl

theorem saleEligible_iff (st : SalesStore) (r : RawSaleDoc) :
    saleEligible st r = true ↔
      metadataFor st.metadata r.metaHash ≠ [] ∧ markersFor st.processed r.metaHash = [] := by
  simp [saleEligible, List.isEmpty_iff]

theorem renewalEligible_iff (st : RenewalStore) (r : RawRenewalDoc) :
    renewalEligible st r = true ↔
      metadataFor st.metadata r.metaHash ≠ [] ∧ markersFor st.ar_processed r.txHash = [] := by
  simp [renewalEligible, List.isEmpty_iff]

theorem mem_resolveSales {st : SalesStore} {j : JoinedSale} :
    j ∈ resolveSales st ↔ ∃ r, r ∈ st.sales ∧ saleEligible st r = true ∧ joinSale st r = j := by
  simp only [resolveSales, List.mem_map, List.mem_filter]
  constructor
  · rintro ⟨r, ⟨hr, he⟩, hj⟩
    exact ⟨r, hr, he, hj⟩
  · rintro ⟨r, hr, he, hj⟩
    exact ⟨r, ⟨hr, he⟩, hj⟩

theorem mem_resolveRenewals {st : RenewalStore} {j : JoinedRenewal} :
    j ∈ resolveRenewals st ↔
      ∃ r, r ∈ st.auto_renew_updates ∧ renewalEligible st r = true ∧ joinRenewal st r = j := by
  simp only [resolveRenewals, List.mem_map, List.mem_filter]
  constructor
  · rintro ⟨r, ⟨hr, he⟩, hj⟩
    exact ⟨r, hr, he, hj⟩
  · rintro ⟨r, hr, he, hj⟩
    exact ⟨r, ⟨hr, he⟩, hj⟩

theorem joinSale_mem_resolveSales {st : SalesStore} {r : RawSaleDoc}
    (hr : r ∈ st.sales) (he : saleEligible st r = true) :
    joinSale st r ∈ resolveSales st :=
  mem_resolveSales.mpr ⟨r, hr, he, rfl⟩

theorem joinRenewal_mem_resolveRenewals {st : RenewalStore} {r : RawRenewalDoc}
    (hr : r ∈ st.auto_renew_updates) (he : renewalEligible st r = true) :
    joinRenewal st r ∈ resolveRenewals st :=
  mem_resolveRenewals.mpr ⟨r, hr, he, rfl⟩

theorem markersFor_eq_nil_iff {ms : List String} {k : String} :
    markersFor ms k = [] ↔ k ∉ ms := by
  simp only [markersFor, List.filter_eq_nil_iff, beq_iff_eq]
  constructor
  · intro h hk
    exact h k hk rfl
  · intro h a ha hak
    exact h (hak ▸ ha)

/-! Helper lemmas about decoding. -/

theorem decodeSaleDoc_meta_hash {j : JoinedSale} {doc : SaleDoc}
    (h : decodeSaleDoc j = some doc) : doc.meta_hash = j.raw.metaHash := by
  cases hr : j.raw with
  | malformed mh th => simp [decodeSaleDoc, hr] at h
  | wellFormed f =>
    simp only [decodeSaleDoc, hr, Option.some.injEq] at h
    subst h
    rfl

theorem decodeSaleDoc_metadata {j : JoinedSale} {doc : SaleDoc}
    (h : decodeSaleDoc j = some doc) : doc.metadata = j.metadata := by
  cases hr : j.raw with
  | malformed mh th => simp [decodeSaleDoc, hr] at h
  | wellFormed f =>
    simp only [decodeSaleDoc, hr, Option.some.injEq] at h
    subst h
    rfl

theorem decodeSaleDoc_isSome_iff {j : JoinedSale} :
    (decodeSaleDoc j).isSome = true ↔ ∃ f, j.raw = RawSaleDoc.wellFormed f := by
  cases hr : j.raw with
  | malformed mh th => simp [decodeSaleDoc, hr]
  | wellFormed f => simp [decodeSaleDoc, hr]

theorem decodeRenewalDoc_tx_hash {j : JoinedRenewal} {doc : ReenewalToggledDoc}
    (h : decodeRenewalDoc j = some doc) : doc.tx_hash = j.raw.txHash := by
  cases hr : j.raw with
  | malformed mh th => simp [decodeRenewalDoc, hr] at h
  | wellFormed f =>
    simp only [decodeRenewalDoc, hr, Option.some.injEq] at h
    subst h
    rfl

theorem decodeRenewalDoc_metadata {j : JoinedRenewal} {doc : ReenewalToggledDoc}
    (h : decodeRenewalDoc j = some doc) : doc.metadata = j.metadata := by
  cases hr : j.raw with
  | malformed mh th => simp [decodeRenewalDoc, hr] at h
  | wellFormed f =>
    simp only [decodeRenewalDoc, hr, Option.some.injEq] at h
    subst h
    rfl

/-! Helper lemmas about `process_sale` and the sales cursor loop. -/

theorem process_sale_eq_none_iff {conf : Config} {v : String → Bool}
    {http : String → HttpResult} {doc : SaleDoc} :
    process_sale conf v http doc = none ↔ doc.metadata = [] := by
  cases hm : doc.metadata with
  | nil => simp [process_sale, hm]
  | cons m0 tl =>
    simp only [process_sale, hm]
    constructor
    · intro h
      by_cases hv : v m0.email = true <;> simp [hv] at h
    · intro h
      cases h

theorem process_sale_isSome {conf : Config} {v : String → Bool}
    {http : String → HttpResult} {doc : SaleDoc} (h : doc.metadata ≠ []) :
    (process_sale conf v http doc).isSome = true := by
  cases hp : process_sale conf v http doc with
  | none => exact absurd (process_sale_eq_none_iff.mp hp) h
  | some a => rfl

theorem processSaleRows_visited_mem (conf : Config) (v : String → Bool)
    (http : String → HttpResult) :
    ∀ (rows : List (Except String JoinedSale)) (acc : PassAcc),
      processSaleRows conf v http rows = some acc →
      ∀ k, (k ∈ acc.visited ↔
        ∃ j doc, Except.ok j ∈ rows ∧ decodeSaleDoc j = some doc ∧ doc.meta_hash = k) := by
  intro rows
  induction rows with
  | nil =>
    intro acc h k
    simp only [processSaleRows, Option.some.injEq] at h
    subst h
    simp
  | cons r rest ih =>
    intro acc h k
    cases r with
    | error e =>
      simp only [processSaleRows, Option.map_eq_some'] at h
      obtain ⟨a, ha, rfl⟩ := h
      simpa using ih a ha k
    | ok j =>
      cases hd : decodeSaleDoc j with
      | none =>
        simp only [processSaleRows, hd, Option.map_eq_some'] at h
        obtain ⟨a, ha, rfl⟩ := h
        have := ih a ha k
        simp only [List.mem_cons] at this ⊢
        rw [this]
        constructor
        · rintro ⟨j', doc', hmem, hdec, hk⟩
          exact ⟨j', doc', Or.inr hmem, hdec, hk⟩
        · rintro ⟨j', doc', hmem, hdec, hk⟩
          rcases hmem with hj | hmem
          · rw [Except.ok.injEq] at hj
            subst hj
            rw [hd] at hdec
            cases hdec
          · exact ⟨j', doc', hmem, hdec, hk⟩
      | some doc =>
        cases hp : process_sale conf v http doc with
        | none =>
          simp [processSaleRows, hd, hp] at h
        | some act =>
          simp only [processSaleRows, hd, hp, Option.map_eq_some'] at h
          obtain ⟨a, ha, rfl⟩ := h
          have := ih a ha k
          simp only [List.mem_cons] at this ⊢
          rw [this]
          constructor
          · rintro (hk | ⟨j', doc', hmem, hdec, hk⟩)
            · exact ⟨j, doc, Or.inl rfl, hd, hk.symm⟩
            · exact ⟨j', doc', Or.inr hmem, hdec, hk⟩
          · rintro ⟨j', doc', hmem, hdec, hk⟩
            rcases hmem with hj | hmem
            · rw [Except.ok.injEq] at hj
              subst hj
              rw [hd] at hdec
              cases hdec
              exact Or.inl hk.symm
            · exact Or.inr ⟨j', doc', hmem, hdec, hk⟩

theorem processSaleRows_isSome (conf : Config) (v : String → Bool)
    (http : String → HttpResult) :
    ∀ (rows : List (Except String JoinedSale)),
      (∀ j doc, Except.ok j ∈ rows → decodeSaleDoc j = some doc → doc.metadata ≠ []) →
      (processSaleRows conf v http rows).isSome = true := by
  intro rows
  induction rows with
  | nil => intro _; rfl
  | cons r rest ih =>
    intro hrows
    have hrest : ∀ j doc, Except.ok j ∈ rest → decodeSaleDoc j = some doc → doc.metadata ≠ [] :=
      fun j doc hj hd => hrows j doc (List.mem_cons_of_mem _ hj) hd
    cases r with
    | error e =>
      simp only [processSaleRows, Option.isSome_map']
      exact ih hrest
    | ok j =>
      cases hd : decodeSaleDoc j with
      | none =>
        simp only [processSaleRows, hd, Option.isSome_map']
        exact ih hrest
      | some doc =>
        have hmeta : doc.metadata ≠ [] := hrows j doc (List.mem_cons_self _ _) hd
        cases hp : process_sale conf v http doc with
        | none => exact absurd (process_sale_eq_none_iff.mp hp) hmeta
        | some act =>
          simp only [processSaleRows, hd, hp, Option.isSome_map']
          exact ih hrest

theorem map_visited_congr {o1 o2 : Option PassAcc}
    (h : o1.map PassAcc.visited = o2.map PassAcc.visited)
    (g1 g2 : PassAcc → PassAcc) (f : List String → List String)
    (hg1 : ∀ a, (g1 a).visited = f a.visited) (hg2 : ∀ a, (g2 a).visited = f a.visited) :
    (o1.map g1).map PassAcc.visited = (o2.map g2).map PassAcc.visited := by
  cases o1 with
  | none =>
    cases o2 with
    | none => rfl
    | some a => simp at h
  | some a =>
    cases o2 with
    | none => simp at h
    | some b =>
      simp only [Option.map_some', Option.some.injEq] at h ⊢
      rw [hg1, hg2, h]

theorem processSaleRows_visited_indep (conf : Config) (v : String → Bool)
    (h1 h2 : String → HttpResult) :
    ∀ (rows : List (Except String JoinedSale)),
      (processSaleRows conf v h1 rows).map PassAcc.visited =
        (processSaleRows conf v h2 rows).map PassAcc.visited := by
  intro rows
  induction rows with
  | nil => rfl
  | cons r rest ih =>
    cases r with
    | error e =>
      simp only [processSaleRows]
      exact map_visited_congr ih _ _ id (fun a => rfl) (fun a => rfl)
    | ok j =>
      cases hd : decodeSaleDoc j with
      | none =>
        simp only [processSaleRows, hd]
        exact map_visited_congr ih _ _ id (fun a => rfl) (fun a => rfl)
      | some doc =>
        cases hp1 : process_sale conf v h1 doc with
        | none =>
          have hm : doc.metadata = [] := process_sale_eq_none_iff.mp hp1
          have hp2 : process_sale conf v h2 doc = none := process_sale_eq_none_iff.mpr hm
          simp [processSaleRows, hd, hp1, hp2]
        | some act1 =>
          have hm : doc.metadata ≠ [] := by
            intro hnil
            rw [process_sale_eq_none_iff.mpr hnil] at hp1
            cases hp1
          cases hp2 : process_sale conf v h2 doc with
          | none => exact absurd (process_sale_eq_none_iff.mp hp2) hm
          | some act2 =>
            simp only [processSaleRows, hd, hp1, hp2]
            exact map_visited_congr ih _ _ (fun l => doc.meta_hash :: l)
              (fun a => rfl) (fun a => rfl)

/-! Helper lemmas about the whole sales pass. -/

theorem ok_mem_map_ok {α : Type} {l : List α} {j : α} :
    (Except.ok j : Except String α) ∈ l.map Except.ok ↔ j ∈ l := by
  rw [List.mem_map]
  constructor
  · rintro ⟨a, ha, haj⟩
    rw [Except.ok.injEq] at haj
    exact haj ▸ ha
  · intro hj
    exact ⟨j, hj, rfl⟩

theorem resolveSales_metadata_ne_nil {st : SalesStore} {j : JoinedSale}
    (hj : j ∈ resolveSales st) : j.metadata ≠ [] := by
  obtain ⟨r, _, he, hjr⟩ := mem_resolveSales.mp hj
  have := (saleEligible_iff st r).mp he
  rw [← hjr]
  exact this.1

theorem runSalesPass_spec {conf : Config} {v : String → Bool} {http : String → HttpResult}
    {st : SalesStore} {out : PassAcc} {st' : SalesStore}
    (h : runSalesPass conf v http st = some (out, st')) :
    processSaleRows conf v http ((resolveSales st).map Except.ok) = some out ∧
      st'.sales = st.sales ∧ st'.metadata = st.metadata ∧
      st'.email_groups = st.email_groups ∧
      st'.processed = st.processed ++ out.visited := by
  simp only [runSalesPass, runSalesPassWith] at h
  cases hp : processSaleRows conf v http ((resolveSales st).map Except.ok) with
  | none => rw [hp] at h; cases h
  | some acc =>
    rw [hp] at h
    dsimp only at h
    by_cases he : acc.visited.isEmpty
    · rw [if_pos he] at h
      rw [Option.some.injEq, Prod.mk.injEq] at h
      obtain ⟨rfl, rfl⟩ := h
      refine ⟨rfl, rfl, rfl, rfl, ?_⟩
      rw [List.isEmpty_iff.mp he, List.append_nil]
    · rw [if_neg he] at h
      rw [Option.some.injEq, Prod.mk.injEq] at h
      obtain ⟨rfl, rfl⟩ := h
      exact ⟨rfl, rfl, rfl, rfl, rfl⟩

theorem runSalesPass_isSome (conf : Config) (v : String → Bool)
    (http : String → HttpResult) (st : SalesStore) :
    (runSalesPass conf v http st).isSome = true := by
  have hrows : ∀ j doc, (Except.ok j : Except String JoinedSale) ∈ (resolveSales st).map Except.ok →
      decodeSaleDoc j = some doc → doc.metadata ≠ [] := by
    intro j doc hj hd
    rw [decodeSaleDoc_metadata hd]
    exact resolveSales_metadata_ne_nil (ok_mem_map_ok.mp hj)
  have := processSaleRows_isSome conf v http ((resolveSales st).map Except.ok) hrows
  simp only [runSalesPass, runSalesPassWith]
  cases hp : processSaleRows conf v http ((resolveSales st).map Except.ok) with
  | none => rw [hp] at this; cases this
  | some acc =>
    dsimp only
    by_cases he : acc.visited.isEmpty
    · rw [if_pos he]; rfl
    · rw [if_neg he]; rfl

theorem runSalesPass_visited_iff {conf : Config} {v : String → Bool}
    {http : String → HttpResult} {st : SalesStore} {out : PassAcc} {st' : SalesStore}
    (h : runSalesPass conf v http st = some (out, st')) (k : String) :
    k ∈ out.visited ↔
      ∃ j doc, j ∈ resolveSales st ∧ decodeSaleDoc j = some doc ∧ doc.meta_hash = k := by
  have hrows := (runSalesPass_spec h).1
  rw [processSaleRows_visited_mem conf v http _ out hrows k]
  constructor
  · rintro ⟨j, doc, hj, hd, hk⟩
    exact ⟨j, doc, ok_mem_map_ok.mp hj, hd, hk⟩
  · rintro ⟨j, doc, hj, hd, hk⟩
    exact ⟨j, doc, ok_mem_map_ok.mpr hj, hd, hk⟩

theorem markersFor_append (a b : List String) (k : String) :
    markersFor (a ++ b) k = markersFor a k ++ markersFor b k :=
  List.filter_append _ _

theorem salesStoreEqOfFields {a b : SalesStore} (hs : a.sales = b.sales)
    (hm : a.metadata = b.metadata) (hp : a.processed = b.processed)
    (hg : a.email_groups = b.email_groups) : a = b := by
  cases a
  cases b
  dsimp at hs hm hp hg
  rw [hs, hm, hp, hg]

theorem joinSale_congr {st st' : SalesStore} (hm : st'.metadata = st.metadata)
    (hg : st'.email_groups = st.email_groups) (r : RawSaleDoc) :
    joinSale st' r = joinSale st r := by
  unfold joinSale
  rw [hm, hg]

theorem runSalesPass_visited_no_marker {conf : Config} {v : String → Bool}
    {http : String → HttpResult} {st : SalesStore} {out : PassAcc} {st' : SalesStore}
    (h : runSalesPass conf v http st = some (out, st')) {k : String}
    (hk : k ∈ out.visited) : k ∉ st.processed := by
  obtain ⟨j, doc, hj, hd, hkeq⟩ := (runSalesPass_visited_iff h k).mp hk
  obtain ⟨r, hr, he, hjr⟩ := mem_resolveSales.mp hj
  have hmarker := ((saleEligible_iff st r).mp he).2
  have hraw : j.raw = r := by rw [← hjr]; rfl
  have hkr : k = r.metaHash := by rw [← hkeq, decodeSaleDoc_meta_hash hd, hraw]
  rw [hkr]
  exact markersFor_eq_nil_iff.mp hmarker

/-! Demonstration values used to instantiate the claim theorems. -/

/-- A demonstration configuration. -/
def conf0 : Config := ⟨⟨"https://mail.example", "KEY"⟩⟩

/-- A validator accepting every address. -/
def vAll : String → Bool := fun _ => true

/-- A validator rejecting every address. -/
def vNone : String → Bool := fun _ => false

/-- An HTTP oracle answering 2xx everywhere. -/
def httpOk : String → HttpResult := fun _ => .success

/-- An HTTP oracle answering 500 everywhere. -/
def httpFail : String → HttpResult := fun _ => .httpError "500 Internal Server Error" "boom"

/-- A metadata record for hash `m`. -/
def md0 : MetadataDoc := ⟨"m", "a@b.c", "state", "s"⟩

/-- A well-formed stored sale with meta hash `m` and tx hash `t1`. -/
def sf1 : SaleFields := ⟨"t1", "m", "example", 0, "payer", 0, 1700000000, false, none, none⟩

/-- A second well-formed stored sale sharing meta hash `m`. -/
def sf2 : SaleFields := ⟨"t2", "m", "other", 0, "payer", 0, 1700000000, false, none, none⟩

/-- A demonstration sales store with one eligible sale and one group tag. -/
def demoSaleStore : SalesStore :=
  ⟨[.wellFormed sf1], [md0], [], [⟨"t1", "vip"⟩]⟩

/-- A well-formed stored renewal toggle. -/
def rf1 : RenewalFields := ⟨"t1", "m", "example", "0xren", "421337"⟩

/-- A demonstration renewal store with one eligible event. -/
def demoRenewalStore : RenewalStore :=
  ⟨[.wellFormed rf1], [md0], [], [⟨"t1", "vip"⟩]⟩

/-! ## C1: eligibility -/

/-- C1: for every event in the store, the event appears in the sequence
resolved by a pass (the sales pipeline for sale events, the renewals
pipeline for renewal-toggle events) iff it has at least one metadata
record joined on `meta_hash` and no marker exists for its dedup key
(`meta_hash` in `processed` for sales, `tx_hash` in `ar_processed` for
renewals). -/
theorem eligibility_iff_metadata_and_unmarked :
    (∀ (st : SalesStore) (r : RawSaleDoc), r ∈ st.sales →
      (joinSale st r ∈ resolveSales st ↔
        metadataFor st.metadata r.metaHash ≠ [] ∧
          markersFor st.processed r.metaHash = [])) ∧
    (∀ (st : RenewalStore) (r : RawRenewalDoc), r ∈ st.auto_renew_updates →
      (joinRenewal st r ∈ resolveRenewals st ↔
        metadataFor st.metadata r.metaHash ≠ [] ∧
          markersFor st.ar_processed r.txHash = [])) := by
  constructor
  · intro st r hr
    constructor
    · intro hmem
      obtain ⟨r', _, he', hj⟩ := mem_resolveSales.mp hmem
      have : r' = r := congrArg JoinedSale.raw hj
      subst this
      exact (saleEligible_iff st r').mp he'
    · intro hcond
      exact joinSale_mem_resolveSales hr ((saleEligible_iff st r).mpr hcond)
  · intro st r hr
    constructor
    · intro hmem
      obtain ⟨r', _, he', hj⟩ := mem_resolveRenewals.mp hmem
      have : r' = r := congrArg JoinedRenewal.raw hj
      subst this
      exact (renewalEligible_iff st r').mp he'
    · intro hcond
      exact joinRenewal_mem_resolveRenewals hr ((renewalEligible_iff st r).mpr hcond)

/-- Witness for C1: the single well-formed sale of the demonstration store,
which has a metadata record and no marker, satisfies the equivalence. -/
theorem eligibility_iff_metadata_and_unmarked_witness :
    joinSale demoSaleStore (.wellFormed sf1) ∈ resolveSales demoSaleStore ↔
      metadataFor demoSaleStore.metadata (RawSaleDoc.wellFormed sf1).metaHash ≠ [] ∧
        markersFor demoSaleStore.processed (RawSaleDoc.wellFormed sf1).metaHash = [] :=
  eligibility_iff_metadata_and_unmarked.1 demoSaleStore (.wellFormed sf1)
    (List.mem_cons_self _ _)

/-! ## C2: at-most-once marking -/

theorem markersFor_length_eq_one_of_nodup {l : List String} (hnd : l.Nodup) {k : String}
    (hk : k ∈ l) : (markersFor l k).length = 1 := by
  induction l with
  | nil => cases hk
  | cons a t ih =>
    rw [List.nodup_cons] at hnd
    rcases List.mem_cons.mp hk with rfl | hk'
    · have hmt : markersFor t k = [] := markersFor_eq_nil_iff.mpr hnd.1
      simp [markersFor, List.filter_cons] at hmt ⊢
      exact hmt
    · have hak : (a == k) = false := by
        rw [beq_eq_false_iff_ne]
        intro h
        exact hnd.1 (h ▸ hk')
      simp only [markersFor, List.filter_cons, hak, cond_false]
      exact ih hnd.2 hk'

theorem markersFor_ne_nil_of_mem {l : List String} {k : String} (hk : k ∈ l) :
    1 ≤ (markersFor l k).length := by
  rcases hn : markersFor l k with _ | ⟨a, t⟩
  · exact absurd (markersFor_eq_nil_iff.mp hn) (fun h => h hk)
  · simp

/-- A store holding two well-formed sales that share the dedup key `m`:
both are eligible in the same pass, so the key is visited twice and two
markers are inserted for it. -/
def cexDupStore : SalesStore :=
  ⟨[.wellFormed sf1, .wellFormed sf2], [md0], [], []⟩

/-- Counterexample to C2 as stated: on a store with two sale events sharing
the dedup key `m`, one pass visits `m` twice and ends with two
ProcessedMarkers for it, so a visited event does not have exactly one
marker. -/
theorem salesPass_exactly_once_counterexample :
    (runSalesPass conf0 vAll httpOk cexDupStore).map
        (fun p => (p.1.visited, p.2.processed)) = some (["m", "m"], ["m", "m"]) ∧
    ¬ (∀ out st', runSalesPass conf0 vAll httpOk cexDupStore = some (out, st') →
        ∀ k, k ∈ out.visited → (markersFor st'.processed k).length = 1) := by
  refine ⟨by decide, ?_⟩
  intro hall
  have h1 : (runSalesPass conf0 vAll httpOk cexDupStore).map
      (fun p => (p.1.visited, p.2.processed)) = some (["m", "m"], ["m", "m"]) := by decide
  obtain ⟨p, hp, hproj⟩ := Option.map_eq_some'.mp h1
  rw [Prod.mk.injEq] at hproj
  have h2 := hall p.1 p.2 hp "m" (by rw [hproj.1]; exact List.mem_cons_self _ _)
  rw [hproj.2] at h2
  exact absurd h2 (by decide)

/-- C2 (amended): after a sales pass completes, every visited event has at
least one ProcessedMarker for its dedup key — exactly one when no two
visited events of the pass share a dedup key — and immediately re-running
the pass on the resulting store visits zero events and leaves the store
unchanged. -/
theorem salesPass_marking_and_idempotence :
    ∀ (conf : Config) (v : String → Bool) (http : String → HttpResult)
      (st : SalesStore) (out : PassAcc) (st' : SalesStore),
      runSalesPass conf v http st = some (out, st') →
      (∀ k, k ∈ out.visited → 1 ≤ (markersFor st'.processed k).length) ∧
      (out.visited.Nodup → ∀ k, k ∈ out.visited → (markersFor st'.processed k).length = 1) ∧
      (∀ out2 st'', runSalesPass conf v http st' = some (out2, st'') →
        out2.visited = [] ∧ st'' = st') := by
  intro conf v http st out st' h
  obtain ⟨hrows, hsales, hmeta, hgroups, hproc⟩ := runSalesPass_spec h
  refine ⟨?_, ?_, ?_⟩
  · intro k hk
    have : k ∈ st'.processed := by
      rw [hproc]
      exact List.mem_append_right _ hk
    exact markersFor_ne_nil_of_mem this
  · intro hnd k hk
    have h0 : markersFor st.processed k = [] :=
      markersFor_eq_nil_iff.mpr (runSalesPass_visited_no_marker h hk)
    rw [hproc, markersFor_append, h0, List.nil_append]
    exact markersFor_length_eq_one_of_nodup hnd hk
  · intro out2 st'' h2
    have hvnil : out2.visited = [] := by
      rw [List.eq_nil_iff_forall_not_mem]
      intro k hk
      obtain ⟨j, doc, hj, hd, hkeq⟩ := (runSalesPass_visited_iff h2 k).mp hk
      obtain ⟨r, hr, he, hjr⟩ := mem_resolveSales.mp hj
      obtain ⟨hmne, hmk⟩ := (saleEligible_iff st' r).mp he
      rw [hproc, markersFor_append] at hmk
      obtain ⟨hmk1, hmk2⟩ := List.append_eq_nil.mp hmk
      have hknotv : r.metaHash ∉ out.visited := markersFor_eq_nil_iff.mp hmk2
      have hmne' : metadataFor st.metadata r.metaHash ≠ [] := by
        rw [← hmeta]
        exact hmne
      have heSt : saleEligible st r = true := (saleEligible_iff st r).mpr ⟨hmne', hmk1⟩
      have hjSt : j ∈ resolveSales st := by
        rw [← hjr, joinSale_congr hmeta hgroups r]
        exact joinSale_mem_resolveSales (hsales ▸ hr) heSt
      have hmem : doc.meta_hash ∈ out.visited :=
        (runSalesPass_visited_iff h _).mpr ⟨j, doc, hjSt, hd, rfl⟩
      have hkr : doc.meta_hash = r.metaHash := by
        rw [decodeSaleDoc_meta_hash hd, ← hjr]
        rfl
      rw [hkr] at hmem
      exact hknotv hmem
    refine ⟨hvnil, ?_⟩
    obtain ⟨_, hsales2, hmeta2, hgroups2, hproc2⟩ := runSalesPass_spec h2
    refine salesStoreEqOfFields hsales2 hmeta2 ?_ hgroups2
    rw [hproc2, hvnil, List.append_nil]

/-- The accumulator produced by one pass over the demonstration store. -/
def demoPassOut : PassAcc :=
  ⟨["m"],
   ["https://mail.example?email=a@b.c&fields[name]=example&fields[expiry]=2023-11-14 22:13:20&groups[]=vip"],
   []⟩

/-- The demonstration store after its first pass: the marker `m` recorded. -/
def demoSaleStoreAfter : SalesStore :=
  ⟨[.wellFormed sf1], [md0], ["m"], [⟨"t1", "vip"⟩]⟩

/-- Witness for the amended C2, at the demonstration store. -/
theorem salesPass_marking_and_idempotence_witness :
    (∀ k, k ∈ demoPassOut.visited → 1 ≤ (markersFor demoSaleStoreAfter.processed k).length) ∧
    (demoPassOut.visited.Nodup →
      ∀ k, k ∈ demoPassOut.visited → (markersFor demoSaleStoreAfter.processed k).length = 1) ∧
    (∀ out2 st'', runSalesPass conf0 vAll httpOk demoSaleStoreAfter = some (out2, st'') →
      out2.visited = [] ∧ st'' = demoSaleStoreAfter) :=
  salesPass_marking_and_idempotence conf0 vAll httpOk demoSaleStore demoPassOut
    demoSaleStoreAfter rfl

/-! ## C3: marking is independent of delivery success -/

/-- C3: the visited list and the resulting marker collection of a sales
pass do not depend on the HTTP oracle at all (in particular a non-2xx or
transport-failed delivery marks exactly as a successful one), and every
successfully decoded event of the pass has its dedup key in the visited
list and in the marker collection afterwards. -/
theorem salesPass_marking_indep_of_delivery :
    (∀ (conf : Config) (v : String → Bool) (h1 h2 : String → HttpResult) (st : SalesStore),
      (runSalesPass conf v h1 st).map (fun p => (p.1.visited, p.2.processed)) =
        (runSalesPass conf v h2 st).map (fun p => (p.1.visited, p.2.processed))) ∧
    (∀ (conf : Config) (v : String → Bool) (http : String → HttpResult) (st : SalesStore)
      (out : PassAcc) (st' : SalesStore) (j : JoinedSale) (doc : SaleDoc),
      runSalesPass conf v http st = some (out, st') →
      j ∈ resolveSales st → decodeSaleDoc j = some doc →
      doc.meta_hash ∈ out.visited ∧ doc.meta_hash ∈ st'.processed) := by
  constructor
  · intro conf v h1 h2 st
    cases hp1 : runSalesPass conf v h1 st with
    | none =>
      have := runSalesPass_isSome conf v h1 st
      rw [hp1] at this
      cases this
    | some p1 =>
      cases hp2 : runSalesPass conf v h2 st with
      | none =>
        have := runSalesPass_isSome conf v h2 st
        rw [hp2] at this
        cases this
      | some p2 =>
        obtain ⟨out1, st1⟩ := p1
        obtain ⟨out2, st2⟩ := p2
        obtain ⟨hrows1, _, _, _, hproc1⟩ := runSalesPass_spec hp1
        obtain ⟨hrows2, _, _, _, hproc2⟩ := runSalesPass_spec hp2
        have hind := processSaleRows_visited_indep conf v h1 h2
          ((resolveSales st).map Except.ok)
        rw [hrows1, hrows2] at hind
        simp only [Option.map_some', Option.some.injEq] at hind ⊢
        rw [Prod.mk.injEq]
        exact ⟨hind, by rw [hproc1, hproc2, hind]⟩
  · intro conf v http st out st' j doc h hj hd
    have hmem : doc.meta_hash ∈ out.visited :=
      (runSalesPass_visited_iff h _).mpr ⟨j, doc, hj, hd, rfl⟩
    refine ⟨hmem, ?_⟩
    rw [(runSalesPass_spec h).2.2.2.2]
    exact List.mem_append_right _ hmem

/-- The joined row of the demonstration store's single sale. -/
def demoJoined : JoinedSale := joinSale demoSaleStore (.wellFormed sf1)

/-- The decoded document of the demonstration store's single sale. -/
def demoSaleDoc : SaleDoc :=
  ⟨"t1", "m", "example", 0, "payer", 0, 1700000000, false, none, none, [md0], ["vip"]⟩

/-- The accumulator of a pass over the demonstration store when every
delivery fails with a 500 status: same visited list, one severe log. -/
def demoPassOutFail : PassAcc :=
  ⟨["m"],
   ["https://mail.example?email=a@b.c&fields[name]=example&fields[expiry]=2023-11-14 22:13:20&groups[]=vip"],
   [Log.severe ("Received non-success status from POST request: 500 Internal Server Error. URL: https://mail.example?email=a@b.c&fields[name]=example&fields[expiry]=2023-11-14 22:13:20&groups[]=vip, Response body: boom")]⟩

/-- Witness for C3: with the all-failing HTTP oracle, the demonstration
sale's key is still visited and marked. -/
theorem salesPass_marking_indep_of_delivery_witness :
    demoSaleDoc.meta_hash ∈ demoPassOutFail.visited ∧
      demoSaleDoc.meta_hash ∈ demoSaleStoreAfter.processed :=
  salesPass_marking_indep_of_delivery.2 conf0 vAll httpFail demoSaleStore demoPassOutFail
    demoSaleStoreAfter demoJoined demoSaleDoc rfl (List.mem_cons_self _ _) rfl

/-! ## C4: invalid-email suppression -/

/-- C4: an event whose first metadata record's email fails validation
produces no outbound HTTP request (its action carries no URL, only the
local log line), in both `process_sale` and `process_toggle_renewal`; and
every decoded event of a sales pass — in particular such a suppressed one —
still has its dedup key visited and marked at end-of-pass. -/
theorem invalid_email_no_request_but_marked :
    (∀ (conf : Config) (v : String → Bool) (http : String → HttpResult) (doc : SaleDoc)
      (m0 : MetadataDoc) (tl : List MetadataDoc),
      doc.metadata = m0 :: tl → v m0.email = false →
      process_sale conf v http doc =
        some ⟨none, [Log.localMsg ("email " ++ m0.email ++ " is not valid")]⟩) ∧
    (∀ (conf : Config) (v : String → Bool) (http : String → HttpResult)
      (doc : ReenewalToggledDoc) (m0 : MetadataDoc) (tl : List MetadataDoc),
      doc.metadata = m0 :: tl → v m0.email = false →
      process_toggle_renewal conf v http doc =
        some ⟨none, [Log.localMsg ("email " ++ m0.email ++ " is not valid")]⟩) ∧
    (∀ (conf : Config) (v : String → Bool) (http : String → HttpResult) (st : SalesStore)
      (out : PassAcc) (st' : SalesStore) (j : JoinedSale) (doc : SaleDoc),
      runSalesPass conf v http st = some (out, st') →
      j ∈ resolveSales st → decodeSaleDoc j = some doc →
      doc.meta_hash ∈ out.visited ∧ doc.meta_hash ∈ st'.processed) := by
  refine ⟨?_, ?_, ?_⟩
  · intro conf v http doc m0 tl hm hv
    simp [process_sale, hm, hv]
  · intro conf v http doc m0 tl hm hv
    simp [process_toggle_renewal, hm, hv]
  · intro conf v http st out st' j doc h hj hd
    have hmem : doc.meta_hash ∈ out.visited :=
      (runSalesPass_visited_iff h _).mpr ⟨j, doc, hj, hd, rfl⟩
    refine ⟨hmem, ?_⟩
    rw [(runSalesPass_spec h).2.2.2.2]
    exact List.mem_append_right _ hmem

/-- Witness for C4: with the all-rejecting validator, the demonstration
sale yields no request and only the local log line. -/
theorem invalid_email_no_request_but_marked_witness :
    process_sale conf0 vNone httpOk demoSaleDoc =
      some ⟨none, [Log.localMsg ("email " ++ md0.email ++ " is not valid")]⟩ :=
  invalid_email_no_request_but_marked.1 conf0 vNone httpOk demoSaleDoc md0 [] rfl rfl

/-! Helper lemmas for the renewal pipeline, mirroring the sales ones. -/

theorem process_toggle_renewal_eq_none_iff {conf : Config} {v : String → Bool}
    {http : String → HttpResult} {doc : ReenewalToggledDoc} :
    process_toggle_renewal conf v http doc = none ↔ doc.metadata = [] := by
  cases hm : doc.metadata with
  | nil => simp [process_toggle_renewal, hm]
  | cons m0 tl =>
    simp only [process_toggle_renewal, hm]
    constructor
    · intro h
      by_cases hv : v m0.email = true <;> simp [hv] at h
    · intro h
      cases h

theorem processRenewalRows_visited_mem (conf : Config) (v : String → Bool)
    (http : String → HttpResult) :
    ∀ (rows : List (Except String JoinedRenewal)) (acc : PassAcc),
      processRenewalRows conf v http rows = some acc →
      ∀ k, (k ∈ acc.visited ↔
        ∃ j doc, Except.ok j ∈ rows ∧ decodeRenewalDoc j = some doc ∧ doc.tx_hash = k) := by
  intro rows
  induction rows with
  | nil =>
    intro acc h k
    simp only [processRenewalRows, Option.some.injEq] at h
    subst h
    simp
  | cons r rest ih =>
    intro acc h k
    cases r with
    | error e =>
      simp only [processRenewalRows, Option.map_eq_some'] at h
      obtain ⟨a, ha, rfl⟩ := h
      simpa using ih a ha k
    | ok j =>
      cases hd : decodeRenewalDoc j with
      | none =>
        simp only [processRenewalRows, hd, Option.map_eq_some'] at h
        obtain ⟨a, ha, rfl⟩ := h
        have := ih a ha k
        simp only [List.mem_cons] at this ⊢
        rw [this]
        constructor
        · rintro ⟨j', doc', hmem, hdec, hk⟩
          exact ⟨j', doc', Or.inr hmem, hdec, hk⟩
        · rintro ⟨j', doc', hmem, hdec, hk⟩
          rcases hmem with hj | hmem
          · rw [Except.ok.injEq] at hj
            subst hj
            rw [hd] at hdec
            cases hdec
          · exact ⟨j', doc', hmem, hdec, hk⟩
      | some doc =>
        cases hp : process_toggle_renewal conf v http doc with
        | none =>
          simp [processRenewalRows, hd, hp] at h
        | some act =>
          simp only [processRenewalRows, hd, hp, Option.map_eq_some'] at h
          obtain ⟨a, ha, rfl⟩ := h
          have := ih a ha k
          simp only [List.mem_cons] at this ⊢
          rw [this]
          constructor
          · rintro (hk | ⟨j', doc', hmem, hdec, hk⟩)
            · exact ⟨j, doc, Or.inl rfl, hd, hk.symm⟩
            · exact ⟨j', doc', Or.inr hmem, hdec, hk⟩
          · rintro ⟨j', doc', hmem, hdec, hk⟩
            rcases hmem with hj | hmem
            · rw [Except.ok.injEq] at hj
              subst hj
              rw [hd] at hdec
              cases hdec
              exact Or.inl hk.symm
            · exact Or.inr ⟨j', doc', hmem, hdec, hk⟩

theorem processRenewalRows_isSome (conf : Config) (v : String → Bool)
    (http : String → HttpResult) :
    ∀ (rows : List (Except String JoinedRenewal)),
      (∀ j doc, Except.ok j ∈ rows → decodeRenewalDoc j = some doc → doc.metadata ≠ []) →
      (processRenewalRows conf v http rows).isSome = true := by
  intro rows
  induction rows with
  | nil => intro _; rfl
  | cons r rest ih =>
    intro hrows
    have hrest : ∀ j doc, Except.ok j ∈ rest → decodeRenewalDoc j = some doc →
        doc.metadata ≠ [] :=
      fun j doc hj hd => hrows j doc (List.mem_cons_of_mem _ hj) hd
    cases r with
    | error e =>
      simp only [processRenewalRows, Option.isSome_map']
      exact ih hrest
    | ok j =>
      cases hd : decodeRenewalDoc j with
      | none =>
        simp only [processRenewalRows, hd, Option.isSome_map']
        exact ih hrest
      | some doc =>
        have hmeta : doc.metadata ≠ [] := hrows j doc (List.mem_cons_self _ _) hd
        cases hp : process_toggle_renewal conf v http doc with
        | none => exact absurd (process_toggle_renewal_eq_none_iff.mp hp) hmeta
        | some act =>
          simp only [processRenewalRows, hd, hp, Option.isSome_map']
          exact ih hrest

theorem resolveRenewals_metadata_ne_nil {st : RenewalStore} {j : JoinedRenewal}
    (hj : j ∈ resolveRenewals st) : j.metadata ≠ [] := by
  obtain ⟨r, _, he, hjr⟩ := mem_resolveRenewals.mp hj
  have := (renewalEligible_iff st r).mp he
  rw [← hjr]
  exact this.1

theorem runRenewalPass_spec {conf : Config} {v : String → Bool} {http : String → HttpResult}
    {st : RenewalStore} {out : PassAcc} {st' : RenewalStore}
    (h : runRenewalPass conf v http st = some (out, st')) :
    processRenewalRows conf v http ((resolveRenewals st).map Except.ok) = some out ∧
      st'.auto_renew_updates = st.auto_renew_updates ∧ st'.metadata = st.metadata ∧
      st'.email_groups = st.email_groups ∧
      st'.ar_processed = st.ar_processed ++ out.visited := by
  simp only [runRenewalPass, runRenewalPassWith] at h
  cases hp : processRenewalRows conf v http ((resolveRenewals st).map Except.ok) with
  | none => rw [hp] at h; cases h
  | some acc =>
    rw [hp] at h
    dsimp only at h
    by_cases he : acc.visited.isEmpty
    · rw [if_pos he] at h
      rw [Option.some.injEq, Prod.mk.injEq] at h
      obtain ⟨rfl, rfl⟩ := h
      refine ⟨rfl, rfl, rfl, rfl, ?_⟩
      rw [List.isEmpty_iff.mp he, List.append_nil]
    · rw [if_neg he] at h
      rw [Option.some.injEq, Prod.mk.injEq] at h
      obtain ⟨rfl, rfl⟩ := h
      exact ⟨rfl, rfl, rfl, rfl, rfl⟩

theorem runRenewalPass_isSome (conf : Config) (v : String → Bool)
    (http : String → HttpResult) (st : RenewalStore) :
    (runRenewalPass conf v http st).isSome = true := by
  have hrows : ∀ j doc,
      (Except.ok j : Except String JoinedRenewal) ∈ (resolveRenewals st).map Except.ok →
      decodeRenewalDoc j = some doc → doc.metadata ≠ [] := by
    intro j doc hj hd
    rw [decodeRenewalDoc_metadata hd]
    exact resolveRenewals_metadata_ne_nil (ok_mem_map_ok.mp hj)
  have := processRenewalRows_isSome conf v http ((resolveRenewals st).map Except.ok) hrows
  simp only [runRenewalPass, runRenewalPassWith]
  cases hp : processRenewalRows conf v http ((resolveRenewals st).map Except.ok) with
  | none => rw [hp] at this; cases this
  | some acc =>
    dsimp only
    by_cases he : acc.visited.isEmpty
    · rw [if_pos he]; rfl
    · rw [if_neg he]; rfl

theorem runRenewalPass_visited_iff {conf : Config} {v : String → Bool}
    {http : String → HttpResult} {st : RenewalStore} {out : PassAcc} {st' : RenewalStore}
    (h : runRenewalPass conf v http st = some (out, st')) (k : String) :
    k ∈ out.visited ↔
      ∃ j doc, j ∈ resolveRenewals st ∧ decodeRenewalDoc j = some doc ∧ doc.tx_hash = k := by
  have hrows := (runRenewalPass_spec h).1
  rw [processRenewalRows_visited_mem conf v http _ out hrows k]
  constructor
  · rintro ⟨j, doc, hj, hd, hk⟩
    exact ⟨j, doc, ok_mem_map_ok.mp hj, hd, hk⟩
  · rintro ⟨j, doc, hj, hd, hk⟩
    exact ⟨j, doc, ok_mem_map_ok.mpr hj, hd, hk⟩

/-! ## C5: decode failures are skipped and not marked -/

theorem renewalStoreEqOfFields {a b : RenewalStore}
    (hs : a.auto_renew_updates = b.auto_renew_updates) (hm : a.metadata = b.metadata)
    (hp : a.ar_processed = b.ar_processed) (hg : a.email_groups = b.email_groups) : a = b := by
  cases a
  cases b
  dsimp at hs hm hp hg
  rw [hs, hm, hp, hg]

theorem joinRenewal_congr {st st' : RenewalStore} (hm : st'.metadata = st.metadata)
    (hg : st'.email_groups = st.email_groups) (r : RawRenewalDoc) :
    joinRenewal st' r = joinRenewal st r := by
  unfold joinRenewal
  rw [hm, hg]

/-- A stored sale document that fails `SaleDoc` decoding, with dedup key
`m` and tx hash `tm`. -/
def rawMal : RawSaleDoc := .malformed "m" "tm"

/-- A store where the malformed document shares its dedup key `m` with a
well-formed sale: both are selected, the well-formed one is visited, and a
marker for `m` is written, so the malformed one is not re-selected. -/
def cexAliasStore : SalesStore :=
  ⟨[rawMal, .wellFormed sf1], [md0], [], []⟩

/-- The store above after one pass: marker `m` recorded. -/
def cexAliasStoreAfter : SalesStore :=
  ⟨[rawMal, .wellFormed sf1], [md0], ["m"], []⟩

/-- Counterexample to C5 as stated: the malformed document is selected and
fails decoding, yet its dedup key `m` ends up in the visited list (pushed
by the well-formed sale sharing the key), a marker for it is written, and
the next pass selects nothing — so it is not re-selected. -/
theorem decode_skip_counterexample :
    joinSale cexAliasStore rawMal ∈ resolveSales cexAliasStore ∧
      decodeSaleDoc (joinSale cexAliasStore rawMal) = none ∧
      (runSalesPass conf0 vAll httpOk cexAliasStore).map
        (fun p => (p.1.visited, p.2.processed)) = some (["m"], ["m"]) ∧
      rawMal.metaHash ∈ (["m"] : List String) ∧
      markersFor (["m"] : List String) rawMal.metaHash ≠ [] ∧
      resolveSales cexAliasStoreAfter = [] :=
  ⟨List.mem_cons_self _ _, rfl, by decide, by decide, by decide, rfl⟩

/-- C5 (amended): a joined document that fails decoding is logged
(`Error parsing doc`) and skipped, contributing nothing to the visited
list itself, in both pipelines; and provided no other visited event of the
pass shares its dedup key, no ProcessedMarker is written for that key and
the document is selected again by the next pass. -/
theorem decode_skip_not_marked :
    (∀ (conf : Config) (v : String → Bool) (http : String → HttpResult)
      (j : JoinedSale) (rest : List (Except String JoinedSale)),
      decodeSaleDoc j = none →
      processSaleRows conf v http (Except.ok j :: rest) =
        (processSaleRows conf v http rest).map
          (fun a => ⟨a.visited, a.requests, Log.severe "Error parsing doc" :: a.logs⟩)) ∧
    (∀ (conf : Config) (v : String → Bool) (http : String → HttpResult) (st : SalesStore)
      (out : PassAcc) (st' : SalesStore),
      runSalesPass conf v http st = some (out, st') →
      ∀ j, j ∈ resolveSales st → decodeSaleDoc j = none →
      j.raw.metaHash ∉ out.visited →
      markersFor st'.processed j.raw.metaHash = [] ∧
        joinSale st' j.raw ∈ resolveSales st') ∧
    (∀ (conf : Config) (v : String → Bool) (http : String → HttpResult)
      (j : JoinedRenewal) (rest : List (Except String JoinedRenewal)),
      decodeRenewalDoc j = none →
      processRenewalRows conf v http (Except.ok j :: rest) =
        (processRenewalRows conf v http rest).map
          (fun a => ⟨a.visited, a.requests, Log.severe "Error parsing doc" :: a.logs⟩)) ∧
    (∀ (conf : Config) (v : String → Bool) (http : String → HttpResult) (st : RenewalStore)
      (out : PassAcc) (st' : RenewalStore),
      runRenewalPass conf v http st = some (out, st') →
      ∀ j, j ∈ resolveRenewals st → decodeRenewalDoc j = none →
      j.raw.txHash ∉ out.visited →
      markersFor st'.ar_processed j.raw.txHash = [] ∧
        joinRenewal st' j.raw ∈ resolveRenewals st') := by
  refine ⟨?_, ?_, ?_, ?_⟩
  · intro conf v http j rest hd
    simp [processSaleRows, hd]
  · intro conf v http st out st' h j hj hd hnv
    obtain ⟨hrows, hsales, hmeta, hgroups, hproc⟩ := runSalesPass_spec h
    obtain ⟨r, hr, he, hjr⟩ := mem_resolveSales.mp hj
    have hraw : j.raw = r := by rw [← hjr]; rfl
    obtain ⟨hmne, hmk⟩ := (saleEligible_iff st r).mp he
    have hmk' : markersFor st'.processed j.raw.metaHash = [] := by
      rw [hproc, markersFor_append, hraw, hmk, List.nil_append]
      exact markersFor_eq_nil_iff.mpr (hraw ▸ hnv)
    refine ⟨hmk', ?_⟩
    have he' : saleEligible st' r = true := by
      refine (saleEligible_iff st' r).mpr ⟨?_, hraw ▸ hmk'⟩
      rw [hmeta]
      exact hmne
    rw [hraw]
    exact joinSale_mem_resolveSales (hsales.symm ▸ hr) he'
  · intro conf v http j rest hd
    simp [processRenewalRows, hd]
  · intro conf v http st out st' h j hj hd hnv
    obtain ⟨hrows, hsales, hmeta, hgroups, hproc⟩ := runRenewalPass_spec h
    obtain ⟨r, hr, he, hjr⟩ := mem_resolveRenewals.mp hj
    have hraw : j.raw = r := by rw [← hjr]; rfl
    obtain ⟨hmne, hmk⟩ := (renewalEligible_iff st r).mp he
    have hmk' : markersFor st'.ar_processed j.raw.txHash = [] := by
      rw [hproc, markersFor_append, hraw, hmk, List.nil_append]
      exact markersFor_eq_nil_iff.mpr (hraw ▸ hnv)
    refine ⟨hmk', ?_⟩
    have he' : renewalEligible st' r = true := by
      refine (renewalEligible_iff st' r).mpr ⟨?_, hraw ▸ hmk'⟩
      rw [hmeta]
      exact hmne
    rw [hraw]
    exact joinRenewal_mem_resolveRenewals (hsales.symm ▸ hr) he'

/-- A store holding only the malformed sale document (and its metadata). -/
def cexMalOnlyStore : SalesStore := ⟨[rawMal], [md0], [], []⟩

/-- Witness for the amended C5: in a store where only the malformed
document carries the key `m`, the pass leaves no marker for it and the
next pass selects it again. -/
theorem decode_skip_not_marked_witness :
    markersFor cexMalOnlyStore.processed rawMal.metaHash = [] ∧
      joinSale cexMalOnlyStore rawMal ∈ resolveSales cexMalOnlyStore :=
  decode_skip_not_marked.2.1 conf0 vAll httpOk cexMalOnlyStore
    ⟨[], [], [Log.severe "Error parsing doc"]⟩ cexMalOnlyStore rfl
    (joinSale cexMalOnlyStore rawMal) (List.mem_cons_self _ _) rfl (List.not_mem_nil _)

/-! ## C6: store-level failures -/

/-- Counterexample to C6 as stated: a failing aggregate query is fatal.
The code calls `.unwrap()` on the aggregate result (processing.rs lines
136 and 291), so a query error panics the process (modelled as `none`)
instead of being logged. -/
theorem store_error_counterexample :
    runSalesPassWith conf0 vAll httpOk (.error "network error") .ok demoSaleStore
        = none ∧
      runRenewalPassWith conf0 vAll httpOk (.error "network error") .ok demoRenewalStore
        = none :=
  ⟨rfl, rfl⟩

/-- C6 (amended): a failing bulk insert of markers is logged and aborts
only that stage's remaining work — the pass returns normally, with the
prefix of the marker batch inserted before the failure durably recorded
(partial insert state is possible) — and a failing cursor record is
logged and skipped, in both pipelines; but a failing aggregate query is
fatal: `.unwrap()` panics the process, so that error is neither caught
nor logged. -/
theorem store_error_handling :
    (∀ (conf : Config) (v : String → Bool) (http : String → HttpResult)
      (rows : List (Except String JoinedSale)) (st : SalesStore) (n : Nat) (e : String)
      (acc : PassAcc),
      processSaleRows conf v http rows = some acc → acc.visited ≠ [] →
      runSalesPassWith conf v http (.ok rows) (.failed n e) st =
        some ({ acc with logs := acc.logs ++
          [Log.severe ("Error inserting into processed collection: " ++ e)] },
          { st with processed := st.processed ++ acc.visited.take n })) ∧
    (∀ (conf : Config) (v : String → Bool) (http : String → HttpResult)
      (e : String) (rest : List (Except String JoinedSale)),
      processSaleRows conf v http (Except.error e :: rest) =
        (processSaleRows conf v http rest).map
          (fun a => ⟨a.visited, a.requests,
            Log.severe ("Error while processing: " ++ e) :: a.logs⟩)) ∧
    (∀ (conf : Config) (v : String → Bool) (http : String → HttpResult)
      (e : String) (ins : InsertOutcome) (st : SalesStore),
      runSalesPassWith conf v http (.error e) ins st = none) ∧
    (∀ (conf : Config) (v : String → Bool) (http : String → HttpResult)
      (rows : List (Except String JoinedRenewal)) (st : RenewalStore) (n : Nat) (e : String)
      (acc : PassAcc),
      processRenewalRows conf v http rows = some acc → acc.visited ≠ [] →
      runRenewalPassWith conf v http (.ok rows) (.failed n e) st =
        some ({ acc with logs := acc.logs ++
          [Log.severe ("Error inserting into processed collection: " ++ e)] },
          { st with ar_processed := st.ar_processed ++ acc.visited.take n })) ∧
    (∀ (conf : Config) (v : String → Bool) (http : String → HttpResult)
      (e : String) (rest : List (Except String JoinedRenewal)),
      processRenewalRows conf v http (Except.error e :: rest) =
        (processRenewalRows conf v http rest).map
          (fun a => ⟨a.visited, a.requests,
            Log.severe ("Error while processing: " ++ e) :: a.logs⟩)) ∧
    (∀ (conf : Config) (v : String → Bool) (http : String → HttpResult)
      (e : String) (ins : InsertOutcome) (st : RenewalStore),
      runRenewalPassWith conf v http (.error e) ins st = none) := by
  refine ⟨?_, ?_, ?_, ?_, ?_, ?_⟩
  · intro conf v http rows st n e acc hrows hne
    simp only [runSalesPassWith, hrows]
    rw [if_neg (fun h => hne (List.isEmpty_iff.mp h))]
  · intro conf v http e rest
    simp [processSaleRows]
  · intro conf v http e ins st
    rfl
  · intro conf v http rows st n e acc hrows hne
    simp only [runRenewalPassWith, hrows]
    rw [if_neg (fun h => hne (List.isEmpty_iff.mp h))]
  · intro conf v http e rest
    simp [processRenewalRows]
  · intro conf v http e ins st
    rfl

/-- Witness for the amended C6: on the demonstration store, an ordered
bulk write failing before any document is inserted appends the severe
insert log and records the empty prefix of the batch. -/
theorem store_error_handling_witness :
    runSalesPassWith conf0 vAll httpOk
        (.ok ((resolveSales demoSaleStore).map Except.ok)) (.failed 0 "disk full")
        demoSaleStore =
      some ({ demoPassOut with logs := demoPassOut.logs ++
        [Log.severe ("Error inserting into processed collection: " ++ "disk full")] },
        { demoSaleStore with
          processed := demoSaleStore.processed ++ demoPassOut.visited.take 0 }) :=
  store_error_handling.1 conf0 vAll httpOk ((resolveSales demoSaleStore).map Except.ok)
    demoSaleStore 0 "disk full" demoPassOut rfl (by decide)

/-! ## C7: content of the renewal request -/

/-- The decoded document of the demonstration renewal store's single
event; its allowance is `421337`. -/
def demoRenewalDoc : ReenewalToggledDoc :=
  ⟨"t1", "m", "example", "0xren", "421337", [md0], ["vip"]⟩

/-- Counterexample to C7 as stated: the outbound renewal request carries
no allowance — neither the field name `allowance` nor the event's
allowance value `421337` occurs anywhere in the URL that
`process_toggle_renewal` posts for the demonstration event. -/
theorem renewal_request_counterexample :
    process_toggle_renewal conf0 vAll httpOk demoRenewalDoc =
      some ⟨some "https://mail.example?email=a@b.c&fields[name]=example&fields[renewer]=0xren&groups[]=vip", []⟩ ∧
      demoRenewalDoc.allowance = "421337" ∧
      ¬ ("allowance".toList <:+:
        "https://mail.example?email=a@b.c&fields[name]=example&fields[renewer]=0xren&groups[]=vip".toList) ∧
      ¬ ("421337".toList <:+:
        "https://mail.example?email=a@b.c&fields[name]=example&fields[renewer]=0xren&groups[]=vip".toList) :=
  ⟨rfl, rfl, by decide, by decide⟩

/-- C7 (amended): for every renewal-toggle event with a valid contact
address, the outbound request built by `process_toggle_renewal` carries
the contact address, the domain name as the named field `fields[name]`,
and the renewer as the named field `fields[renewer]` — the allowance is
not included — plus zero or more repeated group-tag parameters. -/
theorem renewal_request_fields :
    ∀ (conf : Config) (v : String → Bool) (http : String → HttpResult)
      (doc : ReenewalToggledDoc) (m0 : MetadataDoc) (tl : List MetadataDoc),
      doc.metadata = m0 :: tl → v m0.email = true →
      process_toggle_renewal conf v http doc =
        some ⟨some (renewalUrl conf m0.email doc),
          deliveryLogs (renewalUrl conf m0.email doc) (http (renewalUrl conf m0.email doc))⟩ ∧
      renewalUrl conf m0.email doc =
        conf.email.base_url ++ "?email=" ++ m0.email ++ "&fields[name]=" ++ doc.domain ++
          "&fields[renewer]=" ++ doc.renewer ++ "&" ++
          String.intercalate "&" (renewalGroupsParams doc) := by
  intro conf v http doc m0 tl hm hv
  constructor
  · simp [process_toggle_renewal, hm, hv]
  · rfl

/-- Witness for the amended C7, at the demonstration renewal event. -/
theorem renewal_request_fields_witness :
    process_toggle_renewal conf0 vAll httpOk demoRenewalDoc =
      some ⟨some (renewalUrl conf0 md0.email demoRenewalDoc),
        deliveryLogs (renewalUrl conf0 md0.email demoRenewalDoc)
          (httpOk (renewalUrl conf0 md0.email demoRenewalDoc))⟩ ∧
      renewalUrl conf0 md0.email demoRenewalDoc =
        conf0.email.base_url ++ "?email=" ++ md0.email ++ "&fields[name]=" ++
          demoRenewalDoc.domain ++ "&fields[renewer]=" ++ demoRenewalDoc.renewer ++ "&" ++
          String.intercalate "&" (renewalGroupsParams demoRenewalDoc) :=
  renewal_request_fields conf0 vAll httpOk demoRenewalDoc md0 [] rfl rfl

/-! ## C8: expiry formatting -/

/-- Counterexample to C8 as stated: 253402300800 is a valid
(representable) Unix timestamp, but chrono's %Y emits an explicit sign
for years outside 0..=9999, so the rendered value is
`+10000-01-01 00:00:00` — 21 characters starting with a sign — and not a
four-digit-year `YYYY-MM-DD HH:MM:SS` rendering, which has 19. -/
theorem expiry_formatting_counterexample :
    fromTimestampOpt 253402300800 = some 253402300800 ∧
      expiryString 253402300800 = "+10000-01-01 00:00:00" ∧
      (expiryString 253402300800).length = 21 ∧
      ¬ (expiryString 253402300800).length = 19 :=
  ⟨by decide, by decide, by decide, by decide⟩

/-- C8 (amended): the `fields[expiry]` value of the sale URL is the UTC
civil time of the event's expiry rendered by chrono's
`%Y-%m-%d %H:%M:%S`: a `YYYY-MM-DD HH:MM:SS` value with a zero-padded
four-digit year when the UTC year lies in 0..=9999 (1700000000 renders as
`2023-11-14 22:13:20`, 253402300799 as `9999-12-31 23:59:59`), and with
an explicit sign on the year outside that span (253402300800 renders as
`+10000-01-01 00:00:00`); the value is the literal `none` when the
timestamp is out of the representable range; and the sale URL carries
exactly that value after `fields[expiry]=`. -/
theorem expiry_formatting :
    (∀ ts : Int, minTimestamp ≤ ts → ts ≤ maxTimestamp →
      expiryString ts = formatTimestamp ts) ∧
    (∀ ts : Int, ts < minTimestamp ∨ maxTimestamp < ts → expiryString ts = "none") ∧
    (∀ y : Int, 0 ≤ y → y < 10000 → yearString y = padNat4 (Int.toNat y)) ∧
    (∀ y : Int, 9999 < y → yearString y = "+" ++ toString (Int.toNat y)) ∧
    (∀ y : Int, y < 0 → yearString y = "-" ++ padNat4 (Int.toNat (-y))) ∧
    expiryString 1700000000 = "2023-11-14 22:13:20" ∧
    expiryString 253402300799 = "9999-12-31 23:59:59" ∧
    expiryString 253402300800 = "+10000-01-01 00:00:00" ∧
    (∀ (conf : Config) (email : String) (sale : SaleDoc),
      saleUrl conf email sale =
        conf.email.base_url ++ "?email=" ++ email ++ "&fields[name]=" ++ sale.domain ++
          "&fields[expiry]=" ++ expiryString sale.expiry ++ "&" ++
          String.intercalate "&" (saleGroupsParams sale)) := by
  refine ⟨?_, ?_, ?_, ?_, ?_, by decide, by decide, by decide, fun conf email sale => rfl⟩
  · intro ts h1 h2
    rw [expiryString, fromTimestampOpt, if_pos ⟨h1, h2⟩]
  · intro ts h
    rw [expiryString, fromTimestampOpt, if_neg]
    rintro ⟨ha, hb⟩
    rcases h with h | h
    · exact absurd ha (by omega)
    · exact absurd hb (by omega)
  · intro y h0 h1
    rw [yearString, if_neg (by omega), if_pos h1]
  · intro y h
    rw [yearString, if_neg (by omega), if_neg (by omega)]
  · intro y h
    rw [yearString, if_pos h]

/-- Witness for the amended C8 at the timestamp 1700000000, which is
inside the representable range. -/
theorem expiry_formatting_witness :
    expiryString 1700000000 = formatTimestamp 1700000000 :=
  expiry_formatting.1 1700000000 (by decide) (by decide)

/-! ## C9: group-tag projection -/

/-- Number of positions of a character list at which `pat` occurs (used to
count occurrences of a query parameter in a URL). -/
def countOcc (pat : List Char) : List Char → Nat
  | [] => 0
  | c :: tl => (if pat.isPrefixOf (c :: tl) then 1 else 0) + countOcc pat tl

/-- The demonstration sale with no group association. -/
def demoSaleDocNoGroups : SaleDoc :=
  ⟨"t1", "m", "example", 0, "payer", 0, 1700000000, false, none, none, [md0], []⟩

/-- The demonstration sale with two group associations, `vip` then `news`. -/
def demoSaleDocTwoGroups : SaleDoc :=
  ⟨"t1", "m", "example", 0, "payer", 0, 1700000000, false, none, none, [md0],
    ["vip", "news"]⟩

/-- C9: the URL carries one `groups[]=` parameter per element of the
event's group-tag list in the same order — the parameter list is the
elementwise image of the group list, and it is spliced into the URL after
the named fields; an event with zero associations yields a URL with no
`groups[]=` occurrence and one with two associations yields exactly two,
in list order. -/
theorem group_tag_projection :
    (∀ sale : SaleDoc, (saleGroupsParams sale).length = sale.same_tx_groups.length) ∧
    (∀ (sale : SaleDoc) (i : Nat) (h1 : i < (saleGroupsParams sale).length)
      (h2 : i < sale.same_tx_groups.length),
      (saleGroupsParams sale).get ⟨i, h1⟩ =
        "groups[]=" ++ sale.same_tx_groups.get ⟨i, h2⟩) ∧
    (∀ doc : ReenewalToggledDoc,
      (renewalGroupsParams doc).length = doc.same_tx_groups.length) ∧
    (∀ (conf : Config) (email : String) (sale : SaleDoc),
      saleUrl conf email sale =
        saleUrlStem conf email sale ++ "&" ++
          String.intercalate "&" (saleGroupsParams sale)) ∧
    (∀ sale : SaleDoc, sale.same_tx_groups = [] → saleGroupsParams sale = []) ∧
    (∀ (sale : SaleDoc) (g1 g2 : String), sale.same_tx_groups = [g1, g2] →
      saleGroupsParams sale = ["groups[]=" ++ g1, "groups[]=" ++ g2]) ∧
    countOcc "groups[]=".toList (saleUrl conf0 md0.email demoSaleDocNoGroups).toList = 0 ∧
    countOcc "groups[]=".toList (saleUrl conf0 md0.email demoSaleDocTwoGroups).toList = 2 := by
  refine ⟨?_, ?_, ?_, fun conf email sale => rfl, ?_, ?_, by decide, by decide⟩
  · intro sale
    simp [saleGroupsParams]
  · intro sale i h1 h2
    simp only [saleGroupsParams, List.get_eq_getElem, List.getElem_map]
  · intro doc
    simp [renewalGroupsParams]
  · intro sale h
    simp [saleGroupsParams, h]
  · intro sale g1 g2 h
    simp [saleGroupsParams, h]

/-- Witness for C9: the two-group demonstration sale produces exactly the
two parameters, in order. -/
theorem group_tag_projection_witness :
    saleGroupsParams demoSaleDocTwoGroups = ["groups[]=" ++ "vip", "groups[]=" ++ "news"] :=
  group_tag_projection.2.2.2.2.2.1 demoSaleDocTwoGroups "vip" "news" rfl

/-! ## C10: unconditional `metadata[0]` indexing -/

/-- A decoded sale document with an empty metadata list (never produced by
the resolver, which filters those out, but representable as an input to
`process_sale`). -/
def emptyMetaSaleDoc : SaleDoc :=
  ⟨"t1", "m", "example", 0, "payer", 0, 1700000000, false, none, none, [], []⟩

/-- A decoded renewal document with an empty metadata list. -/
def emptyMetaRenewalDoc : ReenewalToggledDoc :=
  ⟨"t1", "m", "example", "0xren", "421337", [], []⟩

/-- C10: `process_sale` and `process_toggle_renewal` index `metadata[0]`
unconditionally: on any document with nonempty metadata they return an
action, but on a document with an empty metadata list they panic
(modelled as `none`); under the resolver's nonempty-metadata filter the
panic is unreachable, so a whole pass never panics from this access. -/
theorem metadata_indexing_panic :
    (∀ (conf : Config) (v : String → Bool) (http : String → HttpResult) (sale : SaleDoc),
      sale.metadata ≠ [] → (process_sale conf v http sale).isSome = true) ∧
    (∀ (conf : Config) (v : String → Bool) (http : String → HttpResult) (doc : SaleDoc),
      doc.metadata = [] → process_sale conf v http doc = none) ∧
    (∀ (conf : Config) (v : String → Bool) (http : String → HttpResult)
      (doc : ReenewalToggledDoc),
      doc.metadata = [] → process_toggle_renewal conf v http doc = none) ∧
    (∀ (conf : Config) (v : String → Bool) (http : String → HttpResult) (st : SalesStore),
      (runSalesPass conf v http st).isSome = true) ∧
    (∀ (conf : Config) (v : String → Bool) (http : String → HttpResult) (st : RenewalStore),
      (runRenewalPass conf v http st).isSome = true) := by
  refine ⟨?_, ?_, ?_, ?_, ?_⟩
  · intro conf v http sale h
    exact process_sale_isSome h
  · intro conf v http doc h
    exact process_sale_eq_none_iff.mpr h
  · intro conf v http doc h
    exact process_toggle_renewal_eq_none_iff.mpr h
  · intro conf v http st
    exact runSalesPass_isSome conf v http st
  · intro conf v http st
    exact runRenewalPass_isSome conf v http st

/-- Witness for C10: the empty-metadata sale makes `process_sale` panic. -/
theorem metadata_indexing_panic_witness :
    process_sale conf0 vAll httpOk emptyMetaSaleDoc = none :=
  metadata_indexing_panic.2.1 conf0 vAll httpOk emptyMetaSaleDoc rfl

end SaleActions
